import Mathlib

/-!
Verification development for the smart-cache memoization engine.

Shallow embedding of the two crates:
* `smart-cache` (`src/crates/smart-cache/src/lib.rs`): the redb-backed
  persistent byte store — the process-wide lazily initialized database
  handle `DB`, and the `get_cached` / `set_cached` operations.
* `smart-cache-macro` (`src/crates/smart-cache-macro/src/lib.rs`): the
  `#[cached]` attribute macro — the purity check `check_for_mutable_refs`,
  the fingerprint `hash_token_stream` over the function renamed to `inner`,
  and the generated per-call wrapper block (build `CacheKey`, serialize it,
  look up, on a hit decode-and-return, on a miss compute, store, return).

Bytes are modeled as `List Nat`; the redb table as an association list
whose insert prepends (so a later write shadows an earlier one, matching
redb's whole-value overwrite).  Fallible redb transaction steps are driven
by explicit fault flags so that every `match`/`?` in the Rust source has a
corresponding branch here.  The rkyv codec for a return type is an abstract
`encode`/`decode` pair; a `.unwrap()` in the Rust source is modeled as the
`CallOutcome.panicked` outcome.
-/

namespace SmartCache

/-- Opaque byte strings (rkyv-serialized keys and values). -/
abbrev Bytes := List Nat

/-- The rkyv serialization codec for one Rust type: `rkyv::to_bytes` and
`rkyv::access`+`rkyv::deserialize`.  `decode` is partial: bytes that do not
match the archived shape of the type fail. -/
structure Codec (β : Type) where
  encode : β → Bytes
  decode : Bytes → Option β

/-- A Rust reference `&'a T`: an address plus the pointee value. -/
structure Ref (α : Type) where
  addr : Nat
  val : α

/-- `#[rkyv(with = InlineAsBox)]` on a reference-typed field of `CacheKey`:
the field is archived by serializing the pointee value; the address does not
enter the byte stream. -/
def archiveRefField (enc : α → Bytes) (r : Ref α) : Bytes :=
  enc r.val

/-- The serialized `CacheKey` struct built by the generated wrapper
(macro lines 177–191): the `InlineAsBox`-archived parameter fields (the
parameter tuple held by reference) followed by the `_function_hash` field. -/
def cacheKeyBytes (enc : α → Bytes) (r : Ref α) (functionHash : Bytes) : Bytes :=
  archiveRefField enc r ++ functionHash

/-- The redb `cache` table: key bytes to value bytes. -/
abbrev Table := List (Bytes × Bytes)

/-- `table.get(key)` on a committed table state (first match wins). -/
def tableGet : Table → Bytes → Option Bytes
  | [], _ => none
  | (k, v) :: rest, key => if k = key then some v else tableGet rest key

/-- `table.insert(key, value)`: whole-value overwrite, modeled by
prepending so the new pair shadows any older one. -/
def tableInsert (t : Table) (key value : Bytes) : Table :=
  (key, value) :: t

/-- Success/failure of each fallible step of a redb read transaction:
`DB.begin_read()`, `txn.open_table(CACHE_TABLE)`, `table.get(key)`. -/
structure ReadFaults where
  beginOk : Bool
  openOk : Bool
  getOk : Bool

/-- Success/failure of each fallible step of a redb write transaction:
`DB.begin_write()`, `open_table`, `insert`, `commit`. -/
structure WriteFaults where
  beginOk : Bool
  openOk : Bool
  insertOk : Bool
  commitOk : Bool

/-- `DB.begin_read()` as a `Result`. -/
def beginRead (rf : ReadFaults) : Except String Unit :=
  if rf.beginOk then .ok () else .error "failed to begin read transaction"

/-- `txn.open_table(CACHE_TABLE)` as a `Result`. -/
def openTableRead (rf : ReadFaults) : Except String Unit :=
  if rf.openOk then .ok () else .error "failed to open table"

/-- `table.get(key_bytes)` as a `Result`: on success the committed table
state answers the lookup. -/
def tableGetResult (rf : ReadFaults) (t : Table) (key : Bytes) :
    Except String (Option Bytes) :=
  if rf.getOk then .ok (tableGet t key) else .error "cache error"

/-- `smart_cache::get_cached` (store crate lines 25–54): nested matches on
the three fallible steps; every error arm returns `None`, the `Ok(Some v)`
arm copies the value out. -/
def get_cached (rf : ReadFaults) (t : Table) (key_bytes : Bytes) : Option Bytes :=
  match beginRead rf with
  | .ok _ =>
    match openTableRead rf with
    | .ok _ =>
      match tableGetResult rf t key_bytes with
      | .ok (some value) => some value
      | .ok none => none
      | .error _ => none
    | .error _ => none
  | .error _ => none

/-- `smart_cache::set_cached` (store crate lines 58–70): a write
transaction with `?`-propagation at every step; the insert is visible only
after `commit` succeeds (atomicity), so the new table state is produced
only on the all-ok path. -/
def set_cached (wf : WriteFaults) (t : Table) (key value : Bytes) :
    Except String Table := do
  let _ ← if wf.beginOk then pure () else
    Except.error "failed to begin write transaction"
  let _ ← if wf.openOk then pure () else Except.error "failed to open table"
  let _ ← if wf.insertOk then pure () else Except.error "insert failed"
  let _ ← if wf.commitOk then pure () else Except.error "commit failed"
  return tableInsert t key value

/-- Result of one call of the generated wrapper: either a normal return or
a panic (a failed `.unwrap()` in the generated block). -/
inductive CallOutcome (β : Type) where
  | ret (value : β)
  | panicked
deriving DecidableEq, Repr

/-- Observable effect of one call: the outcome, the resulting committed
table state, and whether the renamed original function `inner` ran. -/
structure CallResult (β : Type) where
  outcome : CallOutcome β
  table : Table
  innerInvoked : Bool
deriving DecidableEq, Repr

/-- The wrapper block generated by `#[cached]` (macro lines 172–206) for a
call with parameter tuple `a` living at address `addr`:

1. build `CacheKey` from references to the parameters plus the function
   hash and serialize it (`rkyv::to_bytes(&key).unwrap()`);
2. `get_cached`: on `Some(bytes)`, `rkyv::access(..).unwrap()` and
   `rkyv::deserialize(..).unwrap()` — a decode failure panics — and return
   the decoded value without invoking `inner`;
3. otherwise invoke `inner`, serialize the result, `let _ =
   set_cached(..)` (the store error is discarded), and return the result. -/
def cachedCall (enc : α → Bytes) (cv : Codec β) (functionHash : Bytes)
    (inner : α → β) (rf : ReadFaults) (wf : WriteFaults) (addr : Nat)
    (t : Table) (a : α) : CallResult β :=
  let key_bytes := cacheKeyBytes enc ⟨addr, a⟩ functionHash
  match get_cached rf t key_bytes with
  | some cached_result =>
    match cv.decode cached_result with
    | some value => ⟨.ret value, t, false⟩
    | none => ⟨.panicked, t, false⟩
  | none =>
    let result := inner a
    let value_bytes := cv.encode result
    match set_cached wf t key_bytes value_bytes with
    | .ok t2 => ⟨.ret result, t2, true⟩
    | .error _ => ⟨.ret result, t, true⟩

/-- The fragment of `syn::Type` the macro inspects: a plain path type, a
reference `&T` / `&mut T`, or a tuple type. -/
inductive RustType where
  | path (name : String)
  | reference (isMut : Bool) (elem : RustType)
  | tuple (elems : List RustType)

/-- A `syn::FnArg`: a `self` receiver, or a typed pattern `pat: ty`. -/
inductive FnArg where
  | receiver (isRef isMut : Bool)
  | typed (pat : String) (ty : RustType)

/-- `check_for_mutable_refs` (macro lines 78–100): walk the inputs; a
receiver is skipped (`let FnArg::Typed .. else continue`), a typed argument
whose type is not a reference is skipped, a shared reference is skipped
(`let Some(mutability) .. else continue`), and the first `&mut` returns the
error. -/
def check_for_mutable_refs : List FnArg → Except String Unit
  | [] => .ok ()
  | arg :: rest =>
    match arg with
    | .receiver _ _ => check_for_mutable_refs rest
    | .typed _ ty =>
      match ty with
      | .reference true _ =>
        .error "cached functions must be pure - mutable references are not allowed"
      | _ => check_for_mutable_refs rest

/-- `get_param_type` (macro lines 102–108): the type used for a `CacheKey`
field strips one level of reference, so a by-reference parameter
contributes its pointee type. -/
def get_param_type : RustType → RustType
  | .reference _ elem => elem
  | ty => ty

/-- Token text of a `RustType`, as `TokenStream::to_string` renders it. -/
def RustType.render : RustType → String
  | .path n => n
  | .reference m elem =>
    (if m then "& mut " else "& ") ++ elem.render
  | .tuple elems => "(" ++ renderList elems ++ ")"
where
  renderList : List RustType → String
    | [] => ""
    | [ty] => ty.render
    | ty :: rest => ty.render ++ " , " ++ renderList rest

/-- Token text of one `syn::FnArg`. -/
def FnArg.render : FnArg → String
  | .receiver isRef isMut =>
    (if isRef then "& " else "") ++ (if isMut then "mut " else "") ++ "self"
  | .typed pat ty => pat ++ " : " ++ ty.render

/-- Token text of a comma-separated argument list. -/
def renderInputs : List FnArg → String
  | [] => ""
  | [arg] => arg.render
  | arg :: rest => arg.render ++ " , " ++ renderInputs rest

/-- The parts of a `syn::ItemFn` the macro reads: the identifier, the
inputs, and the remaining signature/body tokens. -/
structure ItemFn where
  name : String
  inputs : List FnArg
  output : String
  body : String

/-- `TokenStream::to_string` of a whole `ItemFn`. -/
def ItemFn.tokens (f : ItemFn) : String :=
  "fn " ++ f.name ++ " (" ++ renderInputs f.inputs ++ ") " ++ f.output
    ++ " " ++ f.body

/-- The clone of the input function whose `sig.ident` is replaced by
`inner` (macro lines 128–129). -/
def renameToInner (f : ItemFn) : ItemFn :=
  { f with name := "inner" }

/-- `hash_token_stream` applied as the macro does (lines 131–135): the
digest — `sha` stands for SHA-256 over the token string — of the function
with its identifier replaced by `inner`. -/
def fingerprintOf (sha : String → Bytes) (f : ItemFn) : Bytes :=
  sha (renameToInner f).tokens

/-- What the `cached` attribute expands to: on a purity violation, the
original function followed by a `compile_error!` (no wrapper, so the crate
does not compile and no call can run); otherwise the function whose body is
the caching wrapper keyed under the given fingerprint. -/
inductive MacroOutput where
  | rejected (original : ItemFn) (errMsg : String)
  | expanded (original : ItemFn) (fingerprint : Bytes)

/-- The `cached` proc-macro entry point (macro lines 111–213): run
`check_for_mutable_refs` first and reject on error; otherwise emit the
wrapper built around the fingerprint of the `inner`-renamed clone. -/
def cached (sha : String → Bytes) (f : ItemFn) : MacroOutput :=
  match check_for_mutable_refs f.inputs with
  | .error e => .rejected f e
  | .ok _ => .expanded f (fingerprintOf sha f)

/-- The `Lazy::new` initializer of the static `DB` (store crate lines
13–21): `create_dir_all(..).expect(..)` then `Database::create(..)
.expect(..)`; either `expect` failing aborts the process, modeled as
`Except.error`.  On success the database handle (a `Nat` identifier) is
produced. -/
def dbInit (dirOk dbOk : Bool) (handle : Nat) : Except Unit Nat :=
  if dirOk then
    if dbOk then .ok handle else .error ()
  else .error ()

/-- Dereferencing a `once_cell::sync::Lazy`: if the cell is already filled
the stored handle is returned and the initializer is not consulted;
otherwise the initializer runs once and its result (or its fatal failure)
is recorded. -/
def lazyForce (init : Except Unit Nat) : Option Nat → Except Unit (Nat × Option Nat)
  | some h => .ok (h, some h)
  | none =>
    match init with
    | .ok h => .ok (h, some h)
    | .error e => .error e

/-- A concrete rkyv-style codec for `Nat`, used to exercise the generic
wrapper on concrete calls: a value is one byte, anything else fails to
decode. -/
def natCodec : Codec Nat where
  encode n := [n]
  decode bs :=
    match bs with
    | [n] => some n
    | _ => none

theorem tableGet_tableInsert_self (t : Table) (k v : Bytes) :
    tableGet (tableInsert t k v) k = some v := by
  simp [tableInsert, tableGet]

theorem get_cached_spec (rf : ReadFaults) (t : Table) (k : Bytes) :
    get_cached rf t k =
      if rf.beginOk && rf.openOk && rf.getOk then tableGet t k else none := by
  obtain ⟨b, o, g⟩ := rf
  cases b <;> cases o <;> cases g <;>
    cases htg : tableGet t k <;>
      simp [get_cached, beginRead, openTableRead, tableGetResult, htg]

theorem get_cached_some_table {rf : ReadFaults} {t : Table} {k v : Bytes}
    (h : get_cached rf t k = some v) : tableGet t k = some v := by
  rw [get_cached_spec] at h
  split at h
  · exact h
  · exact absurd h (by simp)

theorem get_cached_ok_read (t : Table) (k : Bytes) :
    get_cached ⟨true, true, true⟩ t k = tableGet t k := by
  rw [get_cached_spec]
  rfl

theorem set_cached_ok (t : Table) (k v : Bytes) :
    set_cached ⟨true, true, true, true⟩ t k v = .ok (tableInsert t k v) := rfl

/-- C4: `get_cached` returns found bytes or absent and never propagates an
error: a failed `begin_read`, a failed `open_table` and a failed `get` each
yield `none`, and a `some` answer can only be the committed table's entry
for the key. -/
theorem get_cached_failures_absent :
    ∀ (rf : ReadFaults) (t : Table) (k : Bytes),
      (rf.beginOk = false → get_cached rf t k = none) ∧
      (rf.openOk = false → get_cached rf t k = none) ∧
      (rf.getOk = false → get_cached rf t k = none) ∧
      (∀ v, get_cached rf t k = some v → tableGet t k = some v) ∧
      (get_cached rf t k = none ∨ ∃ v, get_cached rf t k = some v) := by
  intro rf t k
  refine ⟨?_, ?_, ?_, fun v h => get_cached_some_table h, ?_⟩
  · intro hb
    rw [get_cached_spec, hb]
    simp
  · intro ho
    rw [get_cached_spec, ho]
    simp
  · intro hg
    rw [get_cached_spec, hg]
    simp
  · cases h : get_cached rf t k
    · exact Or.inl rfl
    · exact Or.inr ⟨_, rfl⟩

theorem get_cached_failures_absent_witness :
    (⟨false, true, true⟩ : ReadFaults).beginOk = false ∧
    get_cached ⟨false, true, true⟩ [([1], [2])] [1] = none :=
  ⟨rfl, (get_cached_failures_absent ⟨false, true, true⟩ [([1], [2])] [1]).1 rfl⟩

/-- C3: on a miss, whatever `set_cached` does — including returning any
`StoreError` — the wrapper discards the outcome (`let _ = ..`), returns the
freshly computed `inner a` unchanged, and no error escapes: the outcome is
always `ret (inner a)`. -/
theorem store_error_swallowed (enc : α → Bytes) (cv : Codec β)
    (functionHash : Bytes) (inner : α → β) (rf : ReadFaults)
    (wf : WriteFaults) (addr : Nat) (t : Table) (a : α)
    (hmiss : get_cached rf t (cacheKeyBytes enc ⟨addr, a⟩ functionHash) = none) :
    (cachedCall enc cv functionHash inner rf wf addr t a).outcome
        = .ret (inner a) ∧
    (cachedCall enc cv functionHash inner rf wf addr t a).innerInvoked = true := by
  cases hset : set_cached wf t (cacheKeyBytes enc ⟨addr, a⟩ functionHash)
      (cv.encode (inner a)) <;>
    simp [cachedCall, hmiss, hset]

theorem store_error_swallowed_witness :
    get_cached ⟨true, true, true⟩ []
      (cacheKeyBytes natCodec.encode ⟨0, 5⟩ [7]) = none ∧
    (cachedCall natCodec.encode natCodec [7] (fun n => n + 1)
      ⟨true, true, true⟩ ⟨false, true, true, true⟩ 0 [] 5).outcome = .ret 6 ∧
    (cachedCall natCodec.encode natCodec [7] (fun n => n + 1)
      ⟨true, true, true⟩ ⟨false, true, true, true⟩ 0 [] 5).innerInvoked = true :=
  ⟨rfl,
   (store_error_swallowed natCodec.encode natCodec [7] (fun n => n + 1)
      ⟨true, true, true⟩ ⟨false, true, true, true⟩ 0 [] 5 rfl).1,
   (store_error_swallowed natCodec.encode natCodec [7] (fun n => n + 1)
      ⟨true, true, true⟩ ⟨false, true, true, true⟩ 0 [] 5 rfl).2⟩

/-- C8: the `DB` handle is process-wide and lazy — a filled cell is reused
as-is with the initializer never consulted, the first access runs the
initializer — and a failure to create the cache directory or the database
is fatal (`expect` aborts), while a failed read transaction merely answers
`absent` and a failed write transaction still lets the call compute and
return its result. -/
theorem db_handle_lifecycle :
    (∀ (init : Except Unit Nat) (h : Nat),
      lazyForce init (some h) = .ok (h, some h)) ∧
    (∀ h : Nat, lazyForce (.ok h) none = .ok (h, some h)) ∧
    (∀ (dbOk : Bool) (h : Nat),
      lazyForce (dbInit false dbOk h) none = .error ()) ∧
    (∀ h : Nat, lazyForce (dbInit true false h) none = .error ()) ∧
    (∀ (ro rg : Bool) (t : Table) (k : Bytes),
      get_cached ⟨false, ro, rg⟩ t k = none) ∧
    (∀ (α β : Type) (enc : α → Bytes) (cv : Codec β) (functionHash : Bytes)
      (inner : α → β) (ro rg wo wi wc : Bool) (addr : Nat) (t : Table) (a : α),
      cachedCall enc cv functionHash inner ⟨false, ro, rg⟩ ⟨false, wo, wi, wc⟩
        addr t a = ⟨.ret (inner a), t, true⟩) := by
  refine ⟨fun init h => rfl, fun h => rfl, fun dbOk h => rfl, fun h => rfl,
    fun ro rg t k => rfl, fun α β enc cv functionHash inner ro rg wo wi wc addr t a => ?_⟩
  simp [cachedCall, get_cached, beginRead, set_cached, Bind.bind, Except.bind]

/-- C1: with a round-tripping codec for the return type, a successful
store on the first call and a successful read transaction on the second,
two successive calls on the same argument value (at any addresses) return
equal outcomes and the second call never invokes `inner`: it hits the key
and returns the decoded stored value. -/
theorem second_call_no_recompute (enc : α → Bytes) (cv : Codec β)
    (functionHash : Bytes) (inner : α → β) (rf1 rf2 : ReadFaults)
    (wf1 wf2 : WriteFaults) (addr1 addr2 : Nat) (t : Table) (a : α)
    (hrt : cv.decode (cv.encode (inner a)) = some (inner a))
    (hw1 : wf1 = ⟨true, true, true, true⟩)
    (hr2 : rf2 = ⟨true, true, true⟩)
    (hnp : (cachedCall enc cv functionHash inner rf1 wf1 addr1 t a).outcome
      ≠ .panicked) :
    (cachedCall enc cv functionHash inner rf2 wf2 addr2
        (cachedCall enc cv functionHash inner rf1 wf1 addr1 t a).table a).outcome
      = (cachedCall enc cv functionHash inner rf1 wf1 addr1 t a).outcome ∧
    (cachedCall enc cv functionHash inner rf2 wf2 addr2
        (cachedCall enc cv functionHash inner rf1 wf1 addr1 t a).table a).innerInvoked
      = false := by
  subst hw1 hr2
  have hkey : cacheKeyBytes enc ⟨addr2, a⟩ functionHash
      = cacheKeyBytes enc ⟨addr1, a⟩ functionHash := rfl
  cases hg1 : get_cached rf1 t (cacheKeyBytes enc ⟨addr1, a⟩ functionHash) with
  | some bs =>
    have htg : tableGet t (cacheKeyBytes enc ⟨addr1, a⟩ functionHash) = some bs :=
      get_cached_some_table hg1
    cases hd : cv.decode bs with
    | none =>
      exfalso
      apply hnp
      simp [cachedCall, hg1, hd]
    | some v =>
      have hc1 : cachedCall enc cv functionHash inner rf1 ⟨true, true, true, true⟩
          addr1 t a = ⟨.ret v, t, false⟩ := by
        simp [cachedCall, hg1, hd]
      rw [hc1]
      have hg2 : get_cached ⟨true, true, true⟩ t
          (cacheKeyBytes enc ⟨addr2, a⟩ functionHash) = some bs := by
        rw [get_cached_ok_read, hkey]
        exact htg
      constructor <;> simp [cachedCall, hg2, hd]
  | none =>
    have hc1 : cachedCall enc cv functionHash inner rf1 ⟨true, true, true, true⟩
        addr1 t a
        = ⟨.ret (inner a),
           tableInsert t (cacheKeyBytes enc ⟨addr1, a⟩ functionHash)
             (cv.encode (inner a)), true⟩ := by
      simp [cachedCall, hg1, set_cached_ok]
    rw [hc1]
    have hg2 : get_cached ⟨true, true, true⟩
        (tableInsert t (cacheKeyBytes enc ⟨addr1, a⟩ functionHash)
          (cv.encode (inner a)))
        (cacheKeyBytes enc ⟨addr2, a⟩ functionHash) = some (cv.encode (inner a)) := by
      rw [get_cached_ok_read, hkey]
      exact tableGet_tableInsert_self ..
    constructor <;> simp [cachedCall, hg2, hrt]

theorem second_call_no_recompute_witness :
    natCodec.decode (natCodec.encode ((fun n => n + 1) 5))
      = some ((fun n => n + 1) 5) ∧
    (cachedCall natCodec.encode natCodec [7] (fun n => n + 1)
      ⟨true, true, true⟩ ⟨true, true, true, true⟩ 0 [] 5).outcome ≠ .panicked ∧
    ((cachedCall natCodec.encode natCodec [7] (fun n => n + 1)
        ⟨true, true, true⟩ ⟨true, true, true, true⟩ 1
        (cachedCall natCodec.encode natCodec [7] (fun n => n + 1)
          ⟨true, true, true⟩ ⟨true, true, true, true⟩ 0 [] 5).table 5).outcome
      = (cachedCall natCodec.encode natCodec [7] (fun n => n + 1)
          ⟨true, true, true⟩ ⟨true, true, true, true⟩ 0 [] 5).outcome ∧
     (cachedCall natCodec.encode natCodec [7] (fun n => n + 1)
        ⟨true, true, true⟩ ⟨true, true, true, true⟩ 1
        (cachedCall natCodec.encode natCodec [7] (fun n => n + 1)
          ⟨true, true, true⟩ ⟨true, true, true, true⟩ 0 [] 5).table 5).innerInvoked
      = false) :=
  ⟨rfl, by decide,
   second_call_no_recompute natCodec.encode natCodec [7] (fun n => n + 1)
     ⟨true, true, true⟩ ⟨true, true, true⟩ ⟨true, true, true, true⟩
     ⟨true, true, true, true⟩ 0 1 [] 5 rfl rfl rfl (by decide)⟩

/-- Concrete table whose only entry holds bytes that do not decode as a
`Nat` under `natCodec`: a stale/corrupt cache entry. -/
def badTable : Table := [([5, 7], [9, 9])]

/-- C2 counterexample: on this call the lookup returns `found([9, 9])`,
those bytes fail to decode, and the wrapper panics without running the
underlying computation — the call is not treated as a MISS and the failure
is caller-visible, contradicting the claim. -/
theorem decode_failure_not_miss_cex :
    get_cached ⟨true, true, true⟩ badTable
      (cacheKeyBytes natCodec.encode ⟨0, 5⟩ [7]) = some [9, 9] ∧
    natCodec.decode [9, 9] = none ∧
    cachedCall natCodec.encode natCodec [7] (fun n => n + 1) ⟨true, true, true⟩
      ⟨true, true, true, true⟩ 0 badTable 5 = ⟨.panicked, badTable, false⟩ ∧
    (cachedCall natCodec.encode natCodec [7] (fun n => n + 1) ⟨true, true, true⟩
      ⟨true, true, true, true⟩ 0 badTable 5).outcome ≠ .ret ((fun n => n + 1) 5) :=
  ⟨rfl, rfl, rfl, by decide⟩

/-- C2 (amended): when the lookup reports `found(bytes)`, the call is a
HIT unconditionally — the wrapper decodes and returns the value when the
bytes decode, and panics (a caller-visible `.unwrap()` failure) when they
do not; in neither case does the underlying computation run. -/
theorem found_bytes_decode_contract (enc : α → Bytes) (cv : Codec β)
    (functionHash : Bytes) (inner : α → β) (rf : ReadFaults)
    (wf : WriteFaults) (addr : Nat) (t : Table) (a : α) (bs : Bytes)
    (hfound : get_cached rf t (cacheKeyBytes enc ⟨addr, a⟩ functionHash)
      = some bs) :
    (∀ v, cv.decode bs = some v →
      cachedCall enc cv functionHash inner rf wf addr t a = ⟨.ret v, t, false⟩) ∧
    (cv.decode bs = none →
      cachedCall enc cv functionHash inner rf wf addr t a
        = ⟨.panicked, t, false⟩) := by
  constructor
  · intro v hv
    simp [cachedCall, hfound, hv]
  · intro hv
    simp [cachedCall, hfound, hv]

theorem found_bytes_decode_contract_witness :
    get_cached ⟨true, true, true⟩ [([5, 7], [6])]
      (cacheKeyBytes natCodec.encode ⟨0, 5⟩ [7]) = some [6] ∧
    natCodec.decode [6] = some 6 ∧
    cachedCall natCodec.encode natCodec [7] (fun n => n + 1) ⟨true, true, true⟩
      ⟨true, true, true, true⟩ 0 [([5, 7], [6])] 5
      = ⟨.ret 6, [([5, 7], [6])], false⟩ :=
  ⟨rfl, rfl,
   (found_bytes_decode_contract natCodec.encode natCodec [7] (fun n => n + 1)
     ⟨true, true, true⟩ ⟨true, true, true, true⟩ 0 [([5, 7], [6])] 5 [6] rfl).1 6 rfl⟩

/-- C5: key bytes are a pure function of the fingerprint and the argument
values: two references whose pointee values are equal serialize to
byte-identical keys, and the key is exactly the encoded value followed by
the fingerprint — no address or other process state participates. -/
theorem key_bytes_value_determined (enc : α → Bytes) (functionHash : Bytes)
    (r1 r2 : Ref α) (h : r1.val = r2.val) :
    cacheKeyBytes enc r1 functionHash = cacheKeyBytes enc r2 functionHash ∧
    cacheKeyBytes enc r1 functionHash = enc r1.val ++ functionHash := by
  refine ⟨?_, rfl⟩
  simp [cacheKeyBytes, archiveRefField, h]

theorem key_bytes_value_determined_witness :
    (⟨0, 5⟩ : Ref Nat).val = (⟨99, 5⟩ : Ref Nat).val ∧
    cacheKeyBytes natCodec.encode ⟨0, 5⟩ [7]
      = cacheKeyBytes natCodec.encode ⟨99, 5⟩ [7] :=
  ⟨rfl, (key_bytes_value_determined natCodec.encode [7] ⟨0, 5⟩ ⟨99, 5⟩ rfl).1⟩

/-- C6: a by-reference parameter is keyed by its pointee's value, never its
address: two calls passing distinct references to the same value build
byte-identical keys and behave identically, and the `CacheKey` field type
for a reference parameter is the pointee type (`get_param_type`). -/
theorem ref_params_keyed_by_value (enc : α → Bytes) (cv : Codec β)
    (functionHash : Bytes) (inner : α → β) (rf : ReadFaults)
    (wf : WriteFaults) (addr1 addr2 : Nat) (t : Table) (x : α)
    (_hne : addr1 ≠ addr2) :
    cacheKeyBytes enc ⟨addr1, x⟩ functionHash
      = cacheKeyBytes enc ⟨addr2, x⟩ functionHash ∧
    cachedCall enc cv functionHash inner rf wf addr1 t x
      = cachedCall enc cv functionHash inner rf wf addr2 t x ∧
    (∀ (isMut : Bool) (ty : RustType),
      get_param_type (RustType.reference isMut ty) = ty) :=
  ⟨rfl, rfl, fun _ _ => rfl⟩

theorem ref_params_keyed_by_value_witness :
    (0 : Nat) ≠ 1 ∧
    cacheKeyBytes natCodec.encode ⟨0, 5⟩ [7]
      = cacheKeyBytes natCodec.encode ⟨1, 5⟩ [7] ∧
    cachedCall natCodec.encode natCodec [7] (fun n => n + 1) ⟨true, true, true⟩
      ⟨true, true, true, true⟩ 0 [] 5
      = cachedCall natCodec.encode natCodec [7] (fun n => n + 1) ⟨true, true, true⟩
        ⟨true, true, true, true⟩ 1 [] 5 :=
  ⟨by decide,
   (ref_params_keyed_by_value natCodec.encode natCodec [7] (fun n => n + 1)
     ⟨true, true, true⟩ ⟨true, true, true, true⟩ 0 1 [] 5 (by decide)).1,
   (ref_params_keyed_by_value natCodec.encode natCodec [7] (fun n => n + 1)
     ⟨true, true, true⟩ ⟨true, true, true, true⟩ 0 1 [] 5 (by decide)).2.1⟩

theorem exists_mut_cons_of_not (arg : FnArg) (rest : List FnArg)
    (hno : ∀ p ty, arg ≠ FnArg.typed p (RustType.reference true ty)) :
    (∃ p ty, FnArg.typed p (RustType.reference true ty) ∈ arg :: rest)
      ↔ ∃ p ty, FnArg.typed p (RustType.reference true ty) ∈ rest := by
  constructor
  · rintro ⟨p, ty, h⟩
    rcases List.mem_cons.mp h with h | h
    · exact absurd h.symm (hno p ty)
    · exact ⟨p, ty, h⟩
  · rintro ⟨p, ty, h⟩
    exact ⟨p, ty, List.mem_cons_of_mem _ h⟩

theorem check_for_mutable_refs_error_iff (args : List FnArg) :
    (∃ e, check_for_mutable_refs args = .error e)
      ↔ ∃ p ty, FnArg.typed p (RustType.reference true ty) ∈ args := by
  induction args with
  | nil => simp [check_for_mutable_refs]
  | cons arg rest ih =>
    match arg with
    | .receiver isRef isMut =>
      rw [show check_for_mutable_refs (FnArg.receiver isRef isMut :: rest)
            = check_for_mutable_refs rest from rfl, ih,
          Iff.comm.mp (exists_mut_cons_of_not (FnArg.receiver isRef isMut) rest
            (by intro p ty; simp))]
    | .typed p (.reference true elem) =>
      constructor
      · intro _
        exact ⟨p, elem, List.mem_cons_self _ _⟩
      · intro _
        exact ⟨_, rfl⟩
    | .typed p (.reference false elem) =>
      rw [show check_for_mutable_refs (FnArg.typed p (.reference false elem) :: rest)
            = check_for_mutable_refs rest from rfl, ih,
          Iff.comm.mp (exists_mut_cons_of_not
            (FnArg.typed p (.reference false elem)) rest (by intro q ty; simp))]
    | .typed p (.path n) =>
      rw [show check_for_mutable_refs (FnArg.typed p (.path n) :: rest)
            = check_for_mutable_refs rest from rfl, ih,
          Iff.comm.mp (exists_mut_cons_of_not (FnArg.typed p (.path n)) rest
            (by intro q ty; simp))]
    | .typed p (.tuple elems) =>
      rw [show check_for_mutable_refs (FnArg.typed p (.tuple elems) :: rest)
            = check_for_mutable_refs rest from rfl, ih,
          Iff.comm.mp (exists_mut_cons_of_not (FnArg.typed p (.tuple elems)) rest
            (by intro q ty; simp))]

/-- The compile-fail test's function: `fn impure_function(x: &mut i32) ->
i32`, the body abbreviated to its tokens. -/
def impureFn : ItemFn :=
  ⟨"impure_function",
   [FnArg.typed "x" (RustType.reference true (RustType.path "i32"))],
   "-> i32", "body"⟩

/-- C7: a function with a `&mut` parameter is rejected when the attribute
expands (registration time): `cached` emits the original function plus the
purity compile error and never the caching wrapper, so the crate does not
compile and no call of the function can reach `get_cached`/`set_cached`. -/
theorem mutable_ref_param_rejected (sha : String → Bytes) (f : ItemFn)
    (h : ∃ p ty, FnArg.typed p (RustType.reference true ty) ∈ f.inputs) :
    ∃ e, cached sha f = .rejected f e ∧
      ∀ fp, cached sha f ≠ .expanded f fp := by
  obtain ⟨e, he⟩ := (check_for_mutable_refs_error_iff f.inputs).mpr h
  have hc : cached sha f = .rejected f e := by
    simp [cached, he]
  exact ⟨e, hc, fun fp hcontra => by
    rw [hc] at hcontra
    exact MacroOutput.noConfusion hcontra⟩

theorem mutable_ref_param_rejected_witness :
    (∃ p ty, FnArg.typed p (RustType.reference true ty) ∈ impureFn.inputs) ∧
    ∃ e, cached (fun s => [s.length]) impureFn = .rejected impureFn e ∧
      ∀ fp, cached (fun s => [s.length]) impureFn ≠ .expanded impureFn fp :=
  ⟨⟨"x", RustType.path "i32", by simp [impureFn]⟩,
   mutable_ref_param_rejected (fun s => [s.length]) impureFn
     ⟨"x", RustType.path "i32", by simp [impureFn]⟩⟩

/-- Example function whose only parameter nests a `&mut` inside a tuple
type: `fn g(x: (i32, &mut i32)) -> i32`. -/
def nestedMutFn : ItemFn :=
  ⟨"g",
   [FnArg.typed "x" (RustType.tuple
     [RustType.path "i32", RustType.reference true (RustType.path "i32")])],
   "-> i32", "body"⟩

/-- C10: the registration-time purity check errors exactly when some typed
input's type is syntactically a top-level `&mut` reference; mutability
nested inside another type — here a tuple containing `&mut i32` — passes
the check and the function is registered (the wrapper is generated). -/
theorem purity_check_top_level_only :
    (∀ args : List FnArg,
      (∃ e, check_for_mutable_refs args = .error e)
        ↔ ∃ p ty, FnArg.typed p (RustType.reference true ty) ∈ args) ∧
    check_for_mutable_refs nestedMutFn.inputs = .ok () ∧
    (∃ fp, cached (fun s => [s.length]) nestedMutFn = .expanded nestedMutFn fp) :=
  ⟨check_for_mutable_refs_error_iff, rfl, ⟨_, rfl⟩⟩

/-- C9: the fingerprint is computed over the function with its identifier
replaced by `inner`, so two functions that differ only in their name have
equal fingerprints and address the same cache keys for equal arguments. -/
theorem fingerprint_rename_invariant (sha : String → Bytes) (f : ItemFn)
    (n1 n2 : String) (enc : α → Bytes) (r : Ref α) :
    fingerprintOf sha { f with name := n1 }
      = fingerprintOf sha { f with name := n2 } ∧
    cacheKeyBytes enc r (fingerprintOf sha { f with name := n1 })
      = cacheKeyBytes enc r (fingerprintOf sha { f with name := n2 }) :=
  ⟨rfl, rfl⟩

end SmartCache
